import Mathlib

/-!
Verification of the gesture-classification state machine of `src/js/touch.js`
(`TouchGestureListener`, `TouchMoveListener`) and of the `setRatio` helper of
the companion `RangeInput` slider widget.

Coordinates and thresholds are modelled as real numbers; `Math.hypot` and
`Math.atan2` are modelled by their exact real-valued counterparts.  The
classifier's per-signal handlers (`touchStartHandler`, `touchMoveHandler`,
`touchEndHandler`, `touchCancelHandler`) become pure transition functions on an
explicit session state, returning the list of `trigger` calls (action name and
offset argument) the handler performs.  `null` offsets are modelled by
`JsVal.null`, numeric offsets by `JsVal.num`.
-/

open Real

/-- The two values of the `direction` session variable, `'x'` and `'y'`. -/
inductive Dir : Type
  | x
  | y
deriving DecidableEq, Repr

/-- A JavaScript value as passed to a listener callback: a number or `null`. -/
inductive JsVal : Type
  | num (r : ℝ)
  | null

/-- One `this.trigger(action, offset)` call: action name and offset argument. -/
abbrev Ev : Type := String × JsVal

/-- Model of `Math.hypot(x, y)`. -/
noncomputable def hypot (x y : ℝ) : ℝ := Real.sqrt (x ^ 2 + y ^ 2)

/-- Model of `Math.atan2(y, x)` (note the JavaScript argument order: `y` first),
via the standard piecewise-arctangent definition. -/
noncomputable def atan2 (y x : ℝ) : ℝ :=
  if 0 < x then Real.arctan (y / x)
  else if x < 0 then
    (if 0 ≤ y then Real.arctan (y / x) + π else Real.arctan (y / x) - π)
  else
    (if 0 < y then π / 2 else if y < 0 then -(π / 2) else 0)

/-- Construction configuration of `TouchGestureListener` plus the surface width
`window.innerWidth` read in `touchEndHandler`. -/
structure TConfig : Type where
  minDistanceX : ℝ
  minDistanceY : ℝ
  clickParts : ℤ
  yRadian : ℝ
  innerWidth : ℝ

/-- `this.minDistance = Math.min(minDistanceX, minDistanceY)`. -/
noncomputable def TConfig.minDistance (c : TConfig) : ℝ :=
  min c.minDistanceX c.minDistanceY

/-- The mutable session variables captured by the handler closures:
`startPos`, `lastPos` (both `null` when no session is live) and `direction`. -/
@[ext]
structure TState : Type where
  startPos : Option (ℝ × ℝ)
  lastPos : Option (ℝ × ℝ)
  direction : Option Dir

/-- The state before any signal: all three session variables are `null`. -/
def initState : TState := ⟨none, none, none⟩

/-- Model of `calculateDirection([dx, dy])`: `null` while the displacement is
within `minDistance`, otherwise `'y'` or `'x'` by the angular test. -/
noncomputable def calculateDirection (minDistance yRadian dx dy : ℝ) : Option Dir :=
  if minDistance < hypot dx dy then
    (let angle := atan2 dy dx
     if |angle - (if 0 < angle then (1 : ℝ) else -1) * π / 2| < yRadian / 2 then
       some Dir.y
     else some Dir.x)
  else none

/-- Model of `touchStartHandler`: record start and last position, clear the
locked direction. -/
def touchStartHandler (x y : ℝ) (_s : TState) : TState × List Ev :=
  (⟨some (x, y), some (x, y), none⟩, [])

/-- Model of `touchCancelHandler`: fire `cancelx`/`cancely` when a direction is
locked, then reset all session variables. -/
def touchCancelHandler (s : TState) : TState × List Ev :=
  (⟨none, none, none⟩,
    match s.direction with
    | some Dir.x => [("cancelx", JsVal.null)]
    | some Dir.y => [("cancely", JsVal.null)]
    | none => [])

/-- Model of `touchMoveHandler`: no-op without a start position; otherwise
update `lastPos`, lock the direction if still unlocked, and fire the
continuous `movex`/`movey` action when a direction is locked. -/
noncomputable def touchMoveHandler (minDistance yRadian x y : ℝ) (s : TState) :
    TState × List Ev :=
  match s.startPos with
  | none => (s, [])
  | some p =>
    let dx := x - p.1
    let dy := y - p.2
    let nd := match s.direction with
      | none => calculateDirection minDistance yRadian dx dy
      | some d => some d
    (⟨some p, some (x, y), nd⟩,
      match nd with
      | some Dir.x => [("movex", JsVal.num dx)]
      | some Dir.y => [("movey", JsVal.num dy)]
      | none => [])

/-- Model of the JavaScript array indexing `list[i]` with an integer index:
`undefined` (here `none`) outside the valid range. -/
def jsIndex (l : List String) (i : ℤ) : Option String :=
  if 0 ≤ i then l[i.toNat]? else none

/-- A `this.trigger(action)` call where `action` may be `undefined` (an
out-of-range tap-zone index): triggering `undefined` finds no listener list
and fires nothing. -/
def jsTrigger : Option String → List Ev
  | some a => [(a, JsVal.null)]
  | none => []

/-- Model of `touchEndHandler`: with missing positions, defer to the cancel
handler; with no locked direction classify a tap by start `x` within
`clickParts` zones of the surface width; with a locked direction decide
cancel versus slide by the per-axis threshold and the offset's sign. -/
noncomputable def touchEndHandler (cfg : TConfig) (s : TState) : TState × List Ev :=
  match s.startPos, s.lastPos with
  | some sp, some lp =>
    let dx := lp.1 - sp.1
    let dy := lp.2 - sp.2
    match s.direction with
    | none =>
      (⟨none, none, none⟩,
        if cfg.clickParts = 2 then
          jsTrigger (jsIndex ["touchleft", "touchright"]
            ⌊sp.1 * 2 / cfg.innerWidth⌋)
        else if cfg.clickParts = 3 then
          jsTrigger (jsIndex ["touchleft", "touchmiddle", "touchright"]
            ⌊sp.1 * 3 / cfg.innerWidth⌋)
        else [("touch", JsVal.null)])
    | some Dir.x =>
      (⟨none, none, none⟩,
        if |dx| < cfg.minDistanceX then [("cancelx", JsVal.null)]
        else [(if 0 < dx then "slideright" else "slideleft", JsVal.null)])
    | some Dir.y =>
      (⟨none, none, none⟩,
        if |dy| < cfg.minDistanceY then [("cancely", JsVal.null)]
        else [(if 0 < dy then "slidedown" else "slideup", JsVal.null)])
  | _, _ => touchCancelHandler s

/-- The four normalized signals delivered to the classifier; `stop` stands for
the `end` signal (`end` is reserved in Lean). -/
inductive Signal : Type
  | start (x y : ℝ)
  | move (x y : ℝ)
  | stop
  | cancel

/-- Dispatch one signal to the matching handler. -/
noncomputable def step (cfg : TConfig) (s : TState) : Signal → TState × List Ev
  | Signal.start x y => touchStartHandler x y s
  | Signal.move x y => touchMoveHandler cfg.minDistance cfg.yRadian x y s
  | Signal.stop => touchEndHandler cfg s
  | Signal.cancel => touchCancelHandler s

/-- Process a list of signals in order, concatenating the triggered actions. -/
noncomputable def run (cfg : TConfig) : TState → List Signal → TState × List Ev
  | s, [] => (s, [])
  | s, g :: rest =>
    let r1 := step cfg s g
    let r2 := run cfg r1.1 rest
    (r2.1, r1.2 ++ r2.2)

theorem run_nil (cfg : TConfig) (s : TState) : run cfg s [] = (s, []) := rfl

theorem run_cons (cfg : TConfig) (s : TState) (g : Signal) (rest : List Signal) :
    run cfg s (g :: rest) =
      ((run cfg (step cfg s g).1 rest).1,
        (step cfg s g).2 ++ (run cfg (step cfg s g).1 rest).2) := rfl

theorem run_append (cfg : TConfig) (s : TState) (a b : List Signal) :
    run cfg s (a ++ b) =
      ((run cfg (run cfg s a).1 b).1,
        (run cfg s a).2 ++ (run cfg (run cfg s a).1 b).2) := by
  induction a generalizing s with
  | nil => simp [run_nil]
  | cons g rest ih => simp [run_cons, ih]

/-- The listener map `this.listeners`: an association of action names to the
ordered list of registered callbacks (callbacks are identified by handles). -/
abbrev Registry : Type := List (String × List ℕ)

/-- Lookup in the listener map (`this.listeners.get(action)`, with `none` for
`!this.listeners.has(action)`). -/
def lookupListeners : Registry → String → Option (List ℕ)
  | [], _ => none
  | (b, cbs) :: rest, a => if b = a then some cbs else lookupListeners rest a

/-- Model of `addListener(action, listener)`: create the entry on first use,
then push the callback at the end of the action's list. -/
def addListener : Registry → String → ℕ → Registry
  | [], a, cb => [(a, [cb])]
  | (b, cbs) :: rest, a, cb =>
    if b = a then (b, cbs ++ [cb]) :: rest
    else (b, cbs) :: addListener rest a cb

/-- Model of `trigger(action, offset = null)`: each registered callback is
invoked, in list order, with the single argument `offset`; the result is the
list of performed calls (callback handle, argument list).  An unregistered
action fires nothing. -/
def trigger (reg : Registry) (action : String) (offset : JsVal) :
    List (ℕ × List JsVal) :=
  match lookupListeners reg action with
  | none => []
  | some cbs => cbs.map (fun cb => (cb, [offset]))

/-- Deliver every trigger call of one signal's event list to the registry. -/
def dispatchAll (reg : Registry) (evs : List Ev) : List (ℕ × List JsVal) :=
  (evs.map (fun e => trigger reg e.1 e.2)).flatten

/-- Model of `onTouch`. -/
def onTouch (reg : Registry) (cb : ℕ) : Registry := addListener reg "touch" cb

/-- Model of `onTouchLeft`. -/
def onTouchLeft (reg : Registry) (cb : ℕ) : Registry := addListener reg "touchleft" cb

/-- Model of `onTouchRight`. -/
def onTouchRight (reg : Registry) (cb : ℕ) : Registry := addListener reg "touchright" cb

/-- Model of `onTouchMiddle`. -/
def onTouchMiddle (reg : Registry) (cb : ℕ) : Registry := addListener reg "touchmiddle" cb

/-- Model of `onMoveX`. -/
def onMoveX (reg : Registry) (cb : ℕ) : Registry := addListener reg "movex" cb

/-- Model of `onMoveY`. -/
def onMoveY (reg : Registry) (cb : ℕ) : Registry := addListener reg "movey" cb

/-- Model of `onCancelX`. -/
def onCancelX (reg : Registry) (cb : ℕ) : Registry := addListener reg "cancelx" cb

/-- Model of `onCancelY`. -/
def onCancelY (reg : Registry) (cb : ℕ) : Registry := addListener reg "cancely" cb

/-- Model of `onSlideUp`. -/
def onSlideUp (reg : Registry) (cb : ℕ) : Registry := addListener reg "slideup" cb

/-- Model of `onSlideDown`. -/
def onSlideDown (reg : Registry) (cb : ℕ) : Registry := addListener reg "slidedown" cb

/-- Model of `onSlideLeft`. -/
def onSlideLeft (reg : Registry) (cb : ℕ) : Registry := addListener reg "slideleft" cb

/-- Model of `onSlideRight`. -/
def onSlideRight (reg : Registry) (cb : ℕ) : Registry := addListener reg "slideright" cb

/-- The twelve action-name strings appearing in the handlers and in the
registration wrappers of `TouchGestureListener`. -/
def codeActionNames : List String :=
  ["touch", "touchleft", "touchright", "touchmiddle",
   "movex", "movey", "cancelx", "cancely",
   "slideup", "slidedown", "slideleft", "slideright"]

/-- The mutable flags and document-level listener registrations of
`TouchMoveListener`: `mouseDown`, `touchStart`, and whether the global mouse
and touch handler sets are currently attached to the document. -/
@[ext]
structure NState : Type where
  mouseDown : Bool
  touchStart : Bool
  globalMouse : Bool
  globalTouch : Bool

/-- The raw DOM events relevant to `TouchMoveListener`: the element-level
`mousedown`/`touchstart`, and the document-level events that are only
observed while the corresponding global handler set is attached. -/
inductive DomEv : Type
  | mousedown (x y : ℝ)
  | mouseup
  | mouseleave
  | mousemove (x y : ℝ)
  | touchstart (x y : ℝ)
  | touchend
  | touchcancel
  | touchmove (x y : ℝ)

/-- One DOM event processed by `TouchMoveListener`: the next flag state and
the normalized signals delivered to the registered callbacks.  Document-level
events are dropped when their handler set is not attached. -/
def nstep (s : NState) : DomEv → NState × List Signal
  | DomEv.mousedown x y =>
    if s.touchStart then ({ s with touchStart := false }, [])
    else ({ s with mouseDown := true, globalMouse := true }, [Signal.start x y])
  | DomEv.mouseup =>
    if s.globalMouse then
      ({ s with mouseDown := false, globalMouse := false },
        if s.mouseDown then [Signal.stop] else [])
    else (s, [])
  | DomEv.mouseleave =>
    if s.globalMouse then
      ({ s with mouseDown := false, globalMouse := false },
        if s.mouseDown then [Signal.stop] else [])
    else (s, [])
  | DomEv.mousemove x y =>
    if s.globalMouse && s.mouseDown then (s, [Signal.move x y]) else (s, [])
  | DomEv.touchstart x y =>
    ({ s with touchStart := true, globalTouch := true }, [Signal.start x y])
  | DomEv.touchend =>
    if s.globalTouch then
      ({ s with globalTouch := false },
        if s.touchStart then [Signal.stop] else [])
    else (s, [])
  | DomEv.touchcancel =>
    if s.globalTouch then
      ({ s with globalTouch := false },
        if s.touchStart then [Signal.cancel] else [])
    else (s, [])
  | DomEv.touchmove x y =>
    if s.globalTouch && s.touchStart then (s, [Signal.move x y]) else (s, [])

/-- The `{min, max, step}` configuration of the `RangeInput` slider widget.
Values are modelled as rationals; the JavaScript arithmetic in `setRatio`
(`+`, `-`, `*`, `/`, `Math.round`, `Math.min`, `Math.max`) is exact on them. -/
structure RangeConfig : Type where
  min : ℚ
  max : ℚ
  step : ℚ

/-- The clamped-computation branch of `setRatio` (the `else` expression):
`Math.min(max, Math.max(min, Math.round((max - min) * ratio / step) * step + min))`.
`Math.round` rounds half toward positive infinity, exactly as `round` does. -/
def clampedPos (c : RangeConfig) (r : ℚ) : ℚ :=
  min c.max (max c.min ((round ((c.max - c.min) * r / c.step) : ℤ) * c.step + c.min))

/-- Model of the slider's `setRatio`, preserving the source's `if; if; else`
statement sequence: `pos` starts as `null`, the first `if` assigns `max` at
ratio `1`, and the second `if`/`else` pair then assigns on every path. -/
def setRatio (c : RangeConfig) (r : ℚ) : Option ℚ :=
  let pos : Option ℚ := none
  let pos := if r = 1 then some c.max else pos
  let pos := if r = 0 then some c.min else some (clampedPos c r)
  pos

/-- `arctan` is positive exactly on positive inputs. -/
theorem arctan_pos_iff (t : ℝ) : 0 < Real.arctan t ↔ 0 < t := by
  constructor
  · intro h
    by_contra h'
    push_neg at h'
    have hle : Real.arctan t ≤ Real.arctan 0 := Real.arctan_strictMono.monotone h'
    rw [Real.arctan_zero] at hle
    linarith
  · intro h
    have hlt : Real.arctan 0 < Real.arctan t := Real.arctan_strictMono h
    rwa [Real.arctan_zero] at hlt

/-- For `y ≠ 0` the sign of `atan2 y x` is the sign of `y`. -/
theorem atan2_pos_iff (y x : ℝ) (hy : y ≠ 0) : 0 < atan2 y x ↔ 0 < y := by
  unfold atan2
  rcases lt_trichotomy x 0 with hx | hx | hx
  · rw [if_neg (by linarith), if_pos hx]
    rcases hy.lt_or_lt with hy' | hy'
    · rw [if_neg (by linarith)]
      have h1 : Real.arctan (y / x) < π / 2 := Real.arctan_lt_pi_div_two _
      have h2 : 0 < π := Real.pi_pos
      constructor
      · intro h; linarith
      · intro h; linarith
    · rw [if_pos hy'.le]
      have h1 : -(π / 2) < Real.arctan (y / x) := Real.neg_pi_div_two_lt_arctan _
      have h2 : 0 < π := Real.pi_pos
      constructor
      · intro _; exact hy'
      · intro _; linarith
  · subst hx
    rw [if_neg (lt_irrefl 0), if_neg (lt_irrefl 0)]
    rcases hy.lt_or_lt with hy' | hy'
    · rw [if_neg (by linarith), if_pos hy']
      have h2 : 0 < π := Real.pi_pos
      constructor
      · intro h; linarith
      · intro h; linarith
    · rw [if_pos hy']
      have h2 : 0 < π := Real.pi_pos
      constructor
      · intro _; exact hy'
      · intro _; linarith
  · rw [if_pos hx, arctan_pos_iff]
    constructor
    · intro h
      by_contra hy'
      push_neg at hy'
      have : y / x ≤ 0 := div_nonpos_of_nonpos_of_nonneg hy' hx.le
      linarith
    · intro h; exact div_pos h hx

/-- Strict comparison against `hypot` reduces to comparing squares. -/
theorem lt_hypot_iff (m x y : ℝ) (hm : 0 ≤ m) :
    m < hypot x y ↔ m ^ 2 < x ^ 2 + y ^ 2 := by
  unfold hypot
  exact Real.lt_sqrt hm

/-- Sufficient condition for the displacement to stay within the gate. -/
theorem hypot_le (m x y : ℝ) (hm : 0 ≤ m) (h : x ^ 2 + y ^ 2 ≤ m ^ 2) :
    hypot x y ≤ m := by
  unfold hypot
  calc Real.sqrt (x ^ 2 + y ^ 2) ≤ Real.sqrt (m ^ 2) := Real.sqrt_le_sqrt h
    _ = m := Real.sqrt_sq hm

/-- Within the gate distance, `calculateDirection` stays `null`. -/
theorem calculateDirection_of_le (mD yR dx dy : ℝ) (h : hypot dx dy ≤ mD) :
    calculateDirection mD yR dx dy = none := by
  unfold calculateDirection
  rw [if_neg (not_lt.2 h)]

/-- `calculateDirection` locks exactly when the distance exceeds the gate. -/
theorem calculateDirection_ne_none_iff (mD yR dx dy : ℝ) :
    calculateDirection mD yR dx dy ≠ none ↔ mD < hypot dx dy := by
  unfold calculateDirection
  by_cases h : mD < hypot dx dy
  · rw [if_pos h]
    simp only [h, iff_true]
    by_cases ha : |atan2 dy dx - (if 0 < atan2 dy dx then (1 : ℝ) else -1) * π / 2|
        < yR / 2
    · rw [if_pos ha]; simp
    · rw [if_neg ha]; simp
  · rw [if_neg h]
    simp [h]

theorem touchMoveHandler_noStart (mD yR x y : ℝ) (s : TState)
    (h : s.startPos = none) : touchMoveHandler mD yR x y s = (s, []) := by
  obtain ⟨sp, lp, d0⟩ := s
  cases h
  rfl

theorem touchMoveHandler_lockedx (mD yR x y : ℝ) (p : ℝ × ℝ) (lp : Option (ℝ × ℝ)) :
    touchMoveHandler mD yR x y ⟨some p, lp, some Dir.x⟩ =
      (⟨some p, some (x, y), some Dir.x⟩, [("movex", JsVal.num (x - p.1))]) := rfl

theorem touchMoveHandler_lockedy (mD yR x y : ℝ) (p : ℝ × ℝ) (lp : Option (ℝ × ℝ)) :
    touchMoveHandler mD yR x y ⟨some p, lp, some Dir.y⟩ =
      (⟨some p, some (x, y), some Dir.y⟩, [("movey", JsVal.num (y - p.2))]) := rfl

theorem touchMoveHandler_unlocked (mD yR x y : ℝ) (p : ℝ × ℝ) (lp : Option (ℝ × ℝ)) :
    touchMoveHandler mD yR x y ⟨some p, lp, none⟩ =
      (⟨some p, some (x, y), calculateDirection mD yR (x - p.1) (y - p.2)⟩,
        match calculateDirection mD yR (x - p.1) (y - p.2) with
        | some Dir.x => [("movex", JsVal.num (x - p.1))]
        | some Dir.y => [("movey", JsVal.num (y - p.2))]
        | none => []) := rfl

theorem touchEndHandler_tap (cfg : TConfig) (sp lp : ℝ × ℝ) :
    touchEndHandler cfg ⟨some sp, some lp, none⟩ =
      (⟨none, none, none⟩,
        if cfg.clickParts = 2 then
          jsTrigger (jsIndex ["touchleft", "touchright"] ⌊sp.1 * 2 / cfg.innerWidth⌋)
        else if cfg.clickParts = 3 then
          jsTrigger (jsIndex ["touchleft", "touchmiddle", "touchright"]
            ⌊sp.1 * 3 / cfg.innerWidth⌋)
        else [("touch", JsVal.null)]) := rfl

theorem touchEndHandler_lockedx (cfg : TConfig) (sp lp : ℝ × ℝ) :
    touchEndHandler cfg ⟨some sp, some lp, some Dir.x⟩ =
      (⟨none, none, none⟩,
        if |lp.1 - sp.1| < cfg.minDistanceX then [("cancelx", JsVal.null)]
        else [(if 0 < lp.1 - sp.1 then "slideright" else "slideleft", JsVal.null)]) := rfl

theorem touchEndHandler_lockedy (cfg : TConfig) (sp lp : ℝ × ℝ) :
    touchEndHandler cfg ⟨some sp, some lp, some Dir.y⟩ =
      (⟨none, none, none⟩,
        if |lp.2 - sp.2| < cfg.minDistanceY then [("cancely", JsVal.null)]
        else [(if 0 < lp.2 - sp.2 then "slidedown" else "slideup", JsVal.null)]) := rfl

theorem touchEndHandler_missing (cfg : TConfig) (s : TState)
    (h : s.startPos = none ∨ s.lastPos = none) :
    touchEndHandler cfg s = touchCancelHandler s := by
  obtain ⟨sp, lp, d0⟩ := s
  rcases h with h | h
  · cases h
    rfl
  · cases h
    cases sp <;> rfl

/-- Predicate for `move` signals. -/
def IsMove : Signal → Prop := fun g => ∃ x y, g = Signal.move x y

theorem stepMove_char (cfg : TConfig) (x y : ℝ) (p : ℝ × ℝ)
    (lp : Option (ℝ × ℝ)) (d0 : Option Dir) :
    ∃ nd : Option Dir,
      step cfg ⟨some p, lp, d0⟩ (Signal.move x y) =
        (⟨some p, some (x, y), nd⟩,
          match nd with
          | some Dir.x => [("movex", JsVal.num (x - p.1))]
          | some Dir.y => [("movey", JsVal.num (y - p.2))]
          | none => []) ∧
      (∀ d, d0 = some d → nd = some d) := by
  cases d0 with
  | none =>
    refine ⟨calculateDirection cfg.minDistance cfg.yRadian (x - p.1) (y - p.2), ?_, ?_⟩
    · exact touchMoveHandler_unlocked cfg.minDistance cfg.yRadian x y p lp
    · intro d h
      cases h
  | some d =>
    cases d with
    | x =>
      refine ⟨some Dir.x, ?_, ?_⟩
      · exact touchMoveHandler_lockedx cfg.minDistance cfg.yRadian x y p lp
      · intro d h
        cases h
        rfl
    | y =>
      refine ⟨some Dir.y, ?_, ?_⟩
      · exact touchMoveHandler_lockedy cfg.minDistance cfg.yRadian x y p lp
      · intro d h
        cases h
        rfl

/-- Running any list of `move` signals from a state with a start position:
the start position is preserved, a present last position stays present, a
locked direction persists unchanged, and every fired event is the continuous
move action of the direction that is locked at the end of the run, with a
numeric offset. -/
theorem runMoves_spec (cfg : TConfig) :
    ∀ (sigs : List Signal), (∀ g ∈ sigs, IsMove g) →
    ∀ (s : TState) (p : ℝ × ℝ), s.startPos = some p →
      (run cfg s sigs).1.startPos = some p ∧
      (s.lastPos.isSome = true → (run cfg s sigs).1.lastPos.isSome = true) ∧
      (∀ d, s.direction = some d → (run cfg s sigs).1.direction = some d) ∧
      (∀ e ∈ (run cfg s sigs).2,
        (e.1 = "movex" ∧ (run cfg s sigs).1.direction = some Dir.x ∧
          ∃ v, e.2 = JsVal.num v) ∨
        (e.1 = "movey" ∧ (run cfg s sigs).1.direction = some Dir.y ∧
          ∃ v, e.2 = JsVal.num v)) := by
  intro sigs
  induction sigs with
  | nil =>
    intro _ s p hs
    refine ⟨hs, fun h => h, fun d hd => hd, ?_⟩
    intro e he
    simp [run_nil] at he
  | cons g rest ih =>
    intro hm s p hs
    obtain ⟨x, y, rfl⟩ := hm g (List.mem_cons_self g rest)
    have hmrest : ∀ g' ∈ rest, IsMove g' :=
      fun g' hg' => hm g' (List.mem_cons_of_mem _ hg')
    obtain ⟨sp, lp, d0⟩ := s
    simp only at hs
    subst hs
    obtain ⟨nd, hstep, hnd⟩ := stepMove_char cfg x y p lp d0
    have hrest := ih hmrest ⟨some p, some (x, y), nd⟩ p rfl
    rw [run_cons, hstep]
    refine ⟨hrest.1, fun _ => hrest.2.1 rfl, ?_, ?_⟩
    · intro d hd
      exact hrest.2.2.1 d (hnd d hd)
    · intro e he
      simp only [List.mem_append] at he
      rcases he with he | he
      · cases nd with
        | none => simp at he
        | some d =>
          cases d with
          | x =>
            simp only [List.mem_singleton] at he
            subst he
            exact Or.inl ⟨rfl, hrest.2.2.1 Dir.x rfl, ⟨x - p.1, rfl⟩⟩
          | y =>
            simp only [List.mem_singleton] at he
            subst he
            exact Or.inr ⟨rfl, hrest.2.2.1 Dir.y rfl, ⟨y - p.2, rfl⟩⟩
      · exact hrest.2.2.2 e he

/-- Running a list of `move` signals none of which takes the displacement
from the start position past the gate distance: the direction never locks and
no action fires. -/
theorem runMoves_noLock (cfg : TConfig) (x0 y0 : ℝ) :
    ∀ (sigs : List Signal),
      (∀ g ∈ sigs, ∃ x y, g = Signal.move x y ∧
        hypot (x - x0) (y - y0) ≤ cfg.minDistance) →
    ∀ (lp : Option (ℝ × ℝ)),
      ∃ lp' : Option (ℝ × ℝ),
        run cfg ⟨some (x0, y0), lp, none⟩ sigs =
          (⟨some (x0, y0), lp', none⟩, []) ∧
        (lp.isSome = true → lp'.isSome = true) := by
  intro sigs
  induction sigs with
  | nil =>
    intro _ lp
    exact ⟨lp, run_nil cfg _, fun h => h⟩
  | cons g rest ih =>
    intro hm lp
    obtain ⟨x, y, rfl, hdist⟩ := hm g (List.mem_cons_self g rest)
    have hmrest := fun g' hg' => hm g' (List.mem_cons_of_mem _ hg')
    obtain ⟨lp', hrun, _⟩ := ih hmrest (some (x, y))
    refine ⟨lp', ?_, fun _ => ?_⟩
    · rw [run_cons]
      have hstep : step cfg ⟨some (x0, y0), lp, none⟩ (Signal.move x y) =
          (⟨some (x0, y0), some (x, y), none⟩, []) := by
        have h := touchMoveHandler_unlocked cfg.minDistance cfg.yRadian x y (x0, y0) lp
        rw [show step cfg ⟨some (x0, y0), lp, none⟩ (Signal.move x y) =
            touchMoveHandler cfg.minDistance cfg.yRadian x y ⟨some (x0, y0), lp, none⟩
          from rfl, h, calculateDirection_of_le _ _ _ _ hdist]
      rw [hstep, hrun]
      simp
    · have : lp' = (⟨some (x0, y0), lp', none⟩ : TState).lastPos := rfl
      rcases hlp' : lp' with _ | q
      · rw [hlp'] at hrun
        -- lp' = none: but the run ends with lastPos set by the first move;
        -- derive the contradiction from runMoves_spec
        have hspec := runMoves_spec cfg rest
          (fun g' hg' => by
            obtain ⟨x', y', rfl, _⟩ := hmrest g' hg'
            exact ⟨x', y', rfl⟩)
          ⟨some (x0, y0), some (x, y), none⟩ (x0, y0) rfl
        rw [hrun] at hspec
        simpa using hspec.2.1 rfl
      · rfl

/-- With a valid start `x` in `[0, innerWidth)`, the tap branch of
`touchEndHandler` fires exactly one action, selected by the floor index. -/
theorem touchEndHandler_tap_eval (cfg : TConfig) (sp lp : ℝ × ℝ)
    (h0 : 0 ≤ sp.1) (hw : sp.1 < cfg.innerWidth) :
    (touchEndHandler cfg ⟨some sp, some lp, none⟩).2 =
      [((if cfg.clickParts = 2 then
           (if ⌊sp.1 * 2 / cfg.innerWidth⌋ = 0 then "touchleft" else "touchright")
         else if cfg.clickParts = 3 then
           (if ⌊sp.1 * 3 / cfg.innerWidth⌋ = 0 then "touchleft"
            else if ⌊sp.1 * 3 / cfg.innerWidth⌋ = 1 then "touchmiddle"
            else "touchright")
         else "touch"), JsVal.null)] := by
  have hwpos : 0 < cfg.innerWidth := lt_of_le_of_lt h0 hw
  rw [touchEndHandler_tap]
  by_cases h2 : cfg.clickParts = 2
  · simp only [h2, if_pos]
    have hi0 : 0 ≤ ⌊sp.1 * 2 / cfg.innerWidth⌋ :=
      Int.floor_nonneg.2 (div_nonneg (by linarith) hwpos.le)
    have hi2 : ⌊sp.1 * 2 / cfg.innerWidth⌋ < 2 := by
      rw [Int.floor_lt]
      push_cast
      rw [div_lt_iff hwpos]
      linarith
    have hcases : ⌊sp.1 * 2 / cfg.innerWidth⌋ = 0 ∨ ⌊sp.1 * 2 / cfg.innerWidth⌋ = 1 := by
      omega
    rcases hcases with h | h <;> rw [h] <;> rfl
  · by_cases h3 : cfg.clickParts = 3
    · simp only [h2, h3, if_neg, if_pos, if_false]
      have hi0 : 0 ≤ ⌊sp.1 * 3 / cfg.innerWidth⌋ :=
        Int.floor_nonneg.2 (div_nonneg (by linarith) hwpos.le)
      have hi3 : ⌊sp.1 * 3 / cfg.innerWidth⌋ < 3 := by
        rw [Int.floor_lt]
        push_cast
        rw [div_lt_iff hwpos]
        linarith
      have hcases : ⌊sp.1 * 3 / cfg.innerWidth⌋ = 0 ∨
          ⌊sp.1 * 3 / cfg.innerWidth⌋ = 1 ∨ ⌊sp.1 * 3 / cfg.innerWidth⌋ = 2 := by
        omega
      rcases hcases with h | h | h <;> rw [h] <;> rfl
    · simp only [h2, h3, if_false]

/-- For a pointer due east of the start, `atan2` is zero. -/
theorem atan2_east (x : ℝ) (hx : 0 < x) : atan2 0 x = 0 := by
  unfold atan2
  rw [if_pos hx, zero_div, Real.arctan_zero]

/-- For a pointer due west of the start, `atan2` is `π`. -/
theorem atan2_west (x : ℝ) (hx : x < 0) : atan2 0 x = π := by
  unfold atan2
  rw [if_neg (by linarith), if_pos hx, if_pos le_rfl, zero_div, Real.arctan_zero,
    zero_add]

/-- For a pointer straight below the start (`dy > 0`), `atan2` is `π / 2`. -/
theorem atan2_south (y : ℝ) (hy : 0 < y) : atan2 y 0 = π / 2 := by
  unfold atan2
  rw [if_neg (lt_irrefl 0), if_neg (lt_irrefl 0), if_pos hy]

/-- For a pointer straight above the start (`dy < 0`), `atan2` is `-(π / 2)`. -/
theorem atan2_north (y : ℝ) (hy : y < 0) : atan2 y 0 = -(π / 2) := by
  unfold atan2
  rw [if_neg (lt_irrefl 0), if_neg (lt_irrefl 0), if_neg (by linarith), if_pos hy]

/-- A horizontal move to the right past the gate locks the `'x'` axis
whenever the vertical window is at most `π`. -/
theorem calculateDirection_east (mD yR dx : ℝ) (h : mD < hypot dx 0)
    (hdx : 0 < dx) (hyR : yR ≤ π) :
    calculateDirection mD yR dx 0 = some Dir.x := by
  have hpi : 0 < π := Real.pi_pos
  unfold calculateDirection
  rw [if_pos h]
  simp only [atan2_east dx hdx]
  rw [if_neg (lt_irrefl (0 : ℝ))]
  rw [show (0 : ℝ) - -1 * π / 2 = π / 2 by ring]
  rw [abs_of_nonneg (by linarith : (0 : ℝ) ≤ π / 2)]
  rw [if_neg (by linarith : ¬ π / 2 < yR / 2)]

/-- A horizontal move to the left past the gate locks the `'x'` axis
whenever the vertical window is at most `π`. -/
theorem calculateDirection_west (mD yR dx : ℝ) (h : mD < hypot dx 0)
    (hdx : dx < 0) (hyR : yR ≤ π) :
    calculateDirection mD yR dx 0 = some Dir.x := by
  have hpi : 0 < π := Real.pi_pos
  unfold calculateDirection
  rw [if_pos h]
  simp only [atan2_west dx hdx]
  rw [if_pos hpi]
  rw [show π - 1 * π / 2 = π / 2 by ring]
  rw [abs_of_nonneg (by linarith : (0 : ℝ) ≤ π / 2)]
  rw [if_neg (by linarith : ¬ π / 2 < yR / 2)]

/-- A vertical move downward past the gate locks the `'y'` axis whenever the
vertical window is positive. -/
theorem calculateDirection_south (mD yR dy : ℝ) (h : mD < hypot 0 dy)
    (hdy : 0 < dy) (hyR : 0 < yR) :
    calculateDirection mD yR 0 dy = some Dir.y := by
  have hpi : 0 < π := Real.pi_pos
  unfold calculateDirection
  rw [if_pos h]
  simp only [atan2_south dy hdy]
  rw [if_pos (by linarith : (0 : ℝ) < π / 2)]
  rw [show π / 2 - 1 * π / 2 = 0 by ring, abs_zero]
  rw [if_pos (by linarith : (0 : ℝ) < yR / 2)]

/-- A vertical move upward past the gate locks the `'y'` axis whenever the
vertical window is positive. -/
theorem calculateDirection_north (mD yR dy : ℝ) (h : mD < hypot 0 dy)
    (hdy : dy < 0) (hyR : 0 < yR) :
    calculateDirection mD yR 0 dy = some Dir.y := by
  have hpi : 0 < π := Real.pi_pos
  unfold calculateDirection
  rw [if_pos h]
  simp only [atan2_north dy hdy]
  rw [if_neg (by linarith : ¬ (0 : ℝ) < -(π / 2))]
  rw [show -(π / 2) - -1 * π / 2 = 0 by ring, abs_zero]
  rw [if_pos (by linarith : (0 : ℝ) < yR / 2)]

/-- An exactly diagonal move (equal positive `dx` and `dy`) past the gate sits
exactly on the boundary of the default `π / 2` window, where the strict
comparison classifies it as horizontal. -/
theorem calculateDirection_diagonal (mD dx : ℝ) (h : mD < hypot dx dx)
    (hdx : 0 < dx) :
    calculateDirection mD (π / 2) dx dx = some Dir.x := by
  have hpi : 0 < π := Real.pi_pos
  unfold calculateDirection
  rw [if_pos h]
  have hangle : atan2 dx dx = π / 4 := by
    unfold atan2
    rw [if_pos hdx, div_self hdx.ne', Real.arctan_one]
  simp only [hangle]
  rw [if_pos (by linarith : (0 : ℝ) < π / 4)]
  rw [show π / 4 - 1 * π / 2 = -(π / 4) by ring, abs_neg,
    abs_of_nonneg (by linarith : (0 : ℝ) ≤ π / 4)]
  rw [if_neg (by linarith : ¬ π / 4 < π / 2 / 2)]

theorem stepStart (cfg : TConfig) (s : TState) (x y : ℝ) :
    step cfg s (Signal.start x y) = (⟨some (x, y), some (x, y), none⟩, []) := rfl

theorem stepMove (cfg : TConfig) (s : TState) (x y : ℝ) :
    step cfg s (Signal.move x y) =
      touchMoveHandler cfg.minDistance cfg.yRadian x y s := rfl

theorem stepStop (cfg : TConfig) (s : TState) :
    step cfg s Signal.stop = touchEndHandler cfg s := rfl

theorem stepCancel (cfg : TConfig) (s : TState) :
    step cfg s Signal.cancel = touchCancelHandler s := rfl

theorem stepMove_evalx (cfg : TConfig) (x y x0 y0 : ℝ) (lp : Option (ℝ × ℝ))
    (hcd : calculateDirection cfg.minDistance cfg.yRadian (x - x0) (y - y0) =
      some Dir.x) :
    step cfg ⟨some (x0, y0), lp, none⟩ (Signal.move x y) =
      (⟨some (x0, y0), some (x, y), some Dir.x⟩, [("movex", JsVal.num (x - x0))]) := by
  rw [stepMove, touchMoveHandler_unlocked]
  dsimp only
  rw [hcd]

theorem stepMove_evaly (cfg : TConfig) (x y x0 y0 : ℝ) (lp : Option (ℝ × ℝ))
    (hcd : calculateDirection cfg.minDistance cfg.yRadian (x - x0) (y - y0) =
      some Dir.y) :
    step cfg ⟨some (x0, y0), lp, none⟩ (Signal.move x y) =
      (⟨some (x0, y0), some (x, y), some Dir.y⟩, [("movey", JsVal.num (y - y0))]) := by
  rw [stepMove, touchMoveHandler_unlocked]
  dsimp only
  rw [hcd]

/-- The default configuration of the source (`minDistanceX = 20`,
`minDistanceY = 20`, `clickParts = 3`, `yRadian = π / 2`) on a surface of
width 300, used for concrete scenarios. -/
noncomputable def cfg0 : TConfig := ⟨20, 20, 3, π / 2, 300⟩

/-- C1: a session `start(x0, y0)`, zero or more `move` signals never taking
the displacement from the start past `minDistance = min(minDistanceX,
minDistanceY)`, then `end`, fires exactly one tap action, chosen by
`floor(x0 * tapZones / width)`: with `tapZones = 2` the zones are
`touchleft`/`touchright`, with `tapZones = 3` they are
`touchleft`/`touchmiddle`/`touchright`, and any other `tapZones` value gives
the single generic `touch` action regardless of position. -/
theorem c1_stationary_tap (cfg : TConfig) (x0 y0 : ℝ) (sigs : List Signal)
    (hm : ∀ g ∈ sigs, ∃ x y, g = Signal.move x y ∧
      hypot (x - x0) (y - y0) ≤ min cfg.minDistanceX cfg.minDistanceY) :
    (cfg.clickParts = 2 → 0 ≤ x0 → x0 < cfg.innerWidth →
      (run cfg initState (Signal.start x0 y0 :: (sigs ++ [Signal.stop]))).2 =
        [((if ⌊x0 * 2 / cfg.innerWidth⌋ = 0 then "touchleft" else "touchright"),
          JsVal.null)]) ∧
    (cfg.clickParts = 3 → 0 ≤ x0 → x0 < cfg.innerWidth →
      (run cfg initState (Signal.start x0 y0 :: (sigs ++ [Signal.stop]))).2 =
        [((if ⌊x0 * 3 / cfg.innerWidth⌋ = 0 then "touchleft"
           else if ⌊x0 * 3 / cfg.innerWidth⌋ = 1 then "touchmiddle"
           else "touchright"), JsVal.null)]) ∧
    (cfg.clickParts ≠ 2 → cfg.clickParts ≠ 3 →
      (run cfg initState (Signal.start x0 y0 :: (sigs ++ [Signal.stop]))).2 =
        [("touch", JsVal.null)]) := by
  obtain ⟨lp', hrun, hsome⟩ := runMoves_noLock cfg x0 y0 sigs hm (some (x0, y0))
  obtain ⟨q, rfl⟩ := Option.isSome_iff_exists.mp (hsome rfl)
  have hkey : (run cfg initState (Signal.start x0 y0 :: (sigs ++ [Signal.stop]))).2 =
      (touchEndHandler cfg ⟨some (x0, y0), some q, none⟩).2 := by
    rw [run_cons, stepStart]
    rw [run_append, hrun]
    simp [run_cons, run_nil, stepStop]
  refine ⟨?_, ?_, ?_⟩
  · intro h2 hx0 hxw
    rw [hkey, touchEndHandler_tap_eval cfg (x0, y0) q hx0 hxw, if_pos h2]
  · intro h3 hx0 hxw
    rw [hkey, touchEndHandler_tap_eval cfg (x0, y0) q hx0 hxw,
      if_neg (by omega : ¬ cfg.clickParts = 2), if_pos h3]
  · intro h2 h3
    rw [hkey, touchEndHandler_tap]
    rw [if_neg h2, if_neg h3]

/-- Witness for C1: the spec's concrete scenario — `tapZones = 3`, width 300,
`start(250, 50)` then `end` with no intervening move fires `touchright`. -/
theorem c1_stationary_tap_witness :
    (run cfg0 initState [Signal.start 250 50, Signal.stop]).2 =
      [("touchright", JsVal.null)] := by
  have h := (c1_stationary_tap cfg0 250 50 []
      (by intro g hg; cases hg)).2.1 rfl (by norm_num)
      (by rw [show cfg0.innerWidth = (300 : ℝ) from rfl]; norm_num)
  simp only [List.nil_append] at h
  rw [h]
  have hfl : ⌊(250 : ℝ) * 3 / cfg0.innerWidth⌋ = 2 := by
    rw [show cfg0.innerWidth = (300 : ℝ) from rfl,
      show (250 : ℝ) * 3 / 300 = 5 / 2 by norm_num]
    exact Int.floor_eq_iff.mpr (by norm_num)
  rw [hfl]
  norm_num

/-- C3: within a session, the locked direction is `None` until the
displacement from the start strictly exceeds
`minDistance = min(minDistanceX, minDistanceY)` — a single combined gate —
and once set it never changes on subsequent moves; consequently a short
diagonal move can lock an axis (here `'x'` at displacement `(16, 16)` with
both per-axis thresholds 20) and yet end in `cancelx`. -/
theorem c3_axis_lock_invariant (cfg : TConfig) :
    (∀ (s : TState) (d : Dir) (x y : ℝ), s.direction = some d →
      (step cfg s (Signal.move x y)).1.direction = some d) ∧
    (∀ (s : TState) (p : ℝ × ℝ) (x y : ℝ), s.startPos = some p →
      s.direction = none →
      ((step cfg s (Signal.move x y)).1.direction ≠ none ↔
        min cfg.minDistanceX cfg.minDistanceY < hypot (x - p.1) (y - p.2))) ∧
    (run cfg0 initState [Signal.start 0 0, Signal.move 16 16, Signal.stop]).2 =
      [("movex", JsVal.num (16 - 0)), ("cancelx", JsVal.null)] := by
  refine ⟨?_, ?_, ?_⟩
  · intro s d x y hd
    obtain ⟨sp, lp, d0⟩ := s
    simp only at hd
    subst hd
    rw [stepMove]
    cases sp with
    | none => rw [touchMoveHandler_noStart _ _ _ _ _ rfl]
    | some p =>
      cases d with
      | x => rw [touchMoveHandler_lockedx]
      | y => rw [touchMoveHandler_lockedy]
  · intro s p x y hs hd
    obtain ⟨sp, lp, d0⟩ := s
    simp only at hs hd
    subst hs
    subst hd
    rw [stepMove, touchMoveHandler_unlocked]
    exact calculateDirection_ne_none_iff cfg.minDistance cfg.yRadian
      (x - p.1) (y - p.2)
  · have hg : (20 : ℝ) < hypot (16 - 0) (16 - 0) := by
      rw [show (16 : ℝ) - 0 = 16 by norm_num]
      exact (lt_hypot_iff 20 16 16 (by norm_num)).mpr (by norm_num)
    have hcd : calculateDirection cfg0.minDistance cfg0.yRadian
        (16 - 0) (16 - 0) = some Dir.x := by
      rw [show cfg0.minDistance = (20 : ℝ) from min_self 20,
        show cfg0.yRadian = π / 2 from rfl,
        show (16 : ℝ) - 0 = 16 by norm_num]
      refine calculateDirection_diagonal 20 16 ?_ (by norm_num)
      rw [show (16 : ℝ) - 0 = 16 by norm_num] at hg
      exact hg
    rw [run_cons, stepStart, run_cons, stepMove_evalx cfg0 16 16 0 0 _ hcd,
      run_cons, run_nil, stepStop, touchEndHandler_lockedx]
    dsimp only
    rw [if_pos (by
      rw [abs_of_nonneg (by norm_num : (0 : ℝ) ≤ 16 - 0),
        show cfg0.minDistanceX = (20 : ℝ) from rfl]
      norm_num)]
    simp

/-- Witness for C3: axis persistence and the locking gate instantiated at a
concrete state and move. -/
theorem c3_axis_lock_invariant_witness :
    ((step cfg0 ⟨some (0, 0), some (1, 1), some Dir.y⟩
        (Signal.move 2 3)).1.direction = some Dir.y) ∧
    ((step cfg0 ⟨some (0, 0), some (0, 0), none⟩
        (Signal.move 16 16)).1.direction ≠ none ↔
      min cfg0.minDistanceX cfg0.minDistanceY < hypot (16 - 0) (16 - 0)) :=
  ⟨(c3_axis_lock_invariant cfg0).1 ⟨some (0, 0), some (1, 1), some Dir.y⟩
      Dir.y 2 3 rfl,
    (c3_axis_lock_invariant cfg0).2.1 ⟨some (0, 0), some (0, 0), none⟩
      (0, 0) 16 16 rfl rfl⟩

/-- C5: on a `move` in an active session, if a direction is (now) locked then
exactly one continuous move action fires — `movex` with offset `dx` for
`'x'`, `movey` with offset `dy` for `'y'`, the displacement of the current
position from the start position — and if no direction is locked and the
displacement stays within the gate, no action fires and the direction stays
unlocked. -/
theorem c5_continuous_move (cfg : TConfig) (s : TState) (x y x0 y0 : ℝ)
    (hs : s.startPos = some (x0, y0)) :
    ((step cfg s (Signal.move x y)).1.direction = some Dir.x →
      (step cfg s (Signal.move x y)).2 = [("movex", JsVal.num (x - x0))]) ∧
    ((step cfg s (Signal.move x y)).1.direction = some Dir.y →
      (step cfg s (Signal.move x y)).2 = [("movey", JsVal.num (y - y0))]) ∧
    (s.direction = none →
      hypot (x - x0) (y - y0) ≤ min cfg.minDistanceX cfg.minDistanceY →
      (step cfg s (Signal.move x y)).2 = [] ∧
      (step cfg s (Signal.move x y)).1.direction = none) := by
  obtain ⟨sp, lp, d0⟩ := s
  simp only at hs
  subst hs
  cases d0 with
  | some d =>
    cases d with
    | x =>
      rw [stepMove, touchMoveHandler_lockedx]
      refine ⟨fun _ => rfl, ?_, ?_⟩
      · intro h
        dsimp only at h
        exact absurd h (by decide)
      · intro h
        dsimp only at h
        exact absurd h (by decide)
    | y =>
      rw [stepMove, touchMoveHandler_lockedy]
      refine ⟨?_, fun _ => rfl, ?_⟩
      · intro h
        dsimp only at h
        exact absurd h (by decide)
      · intro h
        dsimp only at h
        exact absurd h (by decide)
  | none =>
    rw [stepMove, touchMoveHandler_unlocked]
    dsimp only
    rcases hcd : calculateDirection cfg.minDistance cfg.yRadian
        (x - x0) (y - y0) with _ | d
    · refine ⟨?_, ?_, fun _ _ => ⟨rfl, rfl⟩⟩
      · intro h
        exact absurd h (by decide)
      · intro h
        exact absurd h (by decide)
    · cases d with
      | x =>
        refine ⟨fun _ => rfl, ?_, ?_⟩
        · intro h
          exact absurd h (by decide)
        · intro _ hdist
          have hnone := calculateDirection_of_le cfg.minDistance cfg.yRadian
            (x - x0) (y - y0) hdist
          rw [hnone] at hcd
          cases hcd
      | y =>
        refine ⟨?_, fun _ => rfl, ?_⟩
        · intro h
          exact absurd h (by decide)
        · intro _ hdist
          have hnone := calculateDirection_of_le cfg.minDistance cfg.yRadian
            (x - x0) (y - y0) hdist
          rw [hnone] at hcd
          cases hcd

/-- Witness for C5: a locked-`'x'` move fires `movex` with the displacement
offset, and a short unlocked move fires nothing. -/
theorem c5_continuous_move_witness :
    ((step cfg0 ⟨some (0, 0), some (0, 0), some Dir.x⟩
        (Signal.move 7 3)).2 = [("movex", JsVal.num (7 - 0))]) ∧
    ((step cfg0 ⟨some (0, 0), some (0, 0), none⟩ (Signal.move 1 1)).2 = [] ∧
      (step cfg0 ⟨some (0, 0), some (0, 0), none⟩
        (Signal.move 1 1)).1.direction = none) := by
  constructor
  · exact (c5_continuous_move cfg0 ⟨some (0, 0), some (0, 0), some Dir.x⟩
      7 3 0 0 rfl).1 rfl
  · refine (c5_continuous_move cfg0 ⟨some (0, 0), some (0, 0), none⟩
      1 1 0 0 rfl).2.2 rfl ?_
    refine hypot_le _ _ _ ?_ ?_
    · rw [show cfg0.minDistanceX = (20 : ℝ) from rfl,
        show cfg0.minDistanceY = (20 : ℝ) from rfl, min_self]
      norm_num
    · rw [show (1 : ℝ) - 0 = 1 by norm_num,
        show cfg0.minDistanceX = (20 : ℝ) from rfl,
        show cfg0.minDistanceY = (20 : ℝ) from rfl, min_self]
      norm_num

/-- C6: a `cancel` on a session with a locked direction fires exactly the
matching cancel action and nothing else; a `cancel` with no locked direction
fires nothing; an `end` with missing positions is redirected to the cancel
path; and a `move` before any `start` is a silent no-op.  All handlers are
total functions, so no signal can raise an error. -/
theorem c6_cancel_and_defensive (cfg : TConfig) (s : TState) :
    (∀ d, s.direction = some d →
      (step cfg s Signal.cancel).2 =
        [((if d = Dir.x then "cancelx" else "cancely"), JsVal.null)]) ∧
    (s.direction = none → (step cfg s Signal.cancel).2 = []) ∧
    ((s.startPos = none ∨ s.lastPos = none) →
      step cfg s Signal.stop = step cfg s Signal.cancel) ∧
    (s.startPos = none → ∀ x y, step cfg s (Signal.move x y) = (s, [])) := by
  refine ⟨?_, ?_, ?_, ?_⟩
  · intro d hd
    obtain ⟨sp, lp, d0⟩ := s
    simp only at hd
    subst hd
    cases d with
    | x => rfl
    | y => rfl
  · intro hd
    obtain ⟨sp, lp, d0⟩ := s
    simp only at hd
    subst hd
    rfl
  · intro h
    rw [stepStop, stepCancel]
    exact touchEndHandler_missing cfg s h
  · intro h x y
    rw [stepMove]
    exact touchMoveHandler_noStart _ _ _ _ _ h

/-- Witness for C6: the four behaviours at concrete states. -/
theorem c6_cancel_and_defensive_witness :
    ((step cfg0 ⟨some (0, 0), some (5, 5), some Dir.y⟩ Signal.cancel).2 =
      [("cancely", JsVal.null)]) ∧
    ((step cfg0 ⟨some (0, 0), some (5, 5), none⟩ Signal.cancel).2 = []) ∧
    (step cfg0 initState Signal.stop = step cfg0 initState Signal.cancel) ∧
    (step cfg0 initState (Signal.move 3 4) = (initState, [])) := by
  refine ⟨?_, ?_, ?_, ?_⟩
  · have h := (c6_cancel_and_defensive cfg0
      ⟨some (0, 0), some (5, 5), some Dir.y⟩).1 Dir.y rfl
    rwa [if_neg (by decide : ¬ Dir.y = Dir.x)] at h
  · exact (c6_cancel_and_defensive cfg0 ⟨some (0, 0), some (5, 5), none⟩).2.1 rfl
  · exact (c6_cancel_and_defensive cfg0 initState).2.2.1 (Or.inl rfl)
  · exact (c6_cancel_and_defensive cfg0 initState).2.2.2 rfl 3 4

/-- A full session prefix: the `start` signal followed by its `move` list. -/
noncomputable def session (cfg : TConfig) (x0 y0 : ℝ) (sigs : List Signal) :
    TState × List Ev :=
  run cfg initState (Signal.start x0 y0 :: sigs)

/-- C2: in a session `start(x0, y0)` followed by moves, if the direction has
locked to `'x'`, every action fired during the moves is `movex` (never
`movey`/`cancely`), and the `end` signal fires `slideright` when
`minDistanceX ≤ |dx|` and `dx > 0`, `slideleft` when `minDistanceX ≤ |dx|`
and `dx < 0`, and `cancelx` (never a slide) when `|dx| < minDistanceX`,
where `dx` is the final displacement `lastPos.x - x0`.  Symmetrically for a
`'y'` lock with `dy`, `minDistanceY`, `slidedown`/`slideup` and `cancely`.
The full session's actions are the move actions followed by the end action. -/
theorem c2_locked_axis_end (cfg : TConfig) (x0 y0 : ℝ) (sigs : List Signal)
    (hm : ∀ g ∈ sigs, IsMove g) (lx ly : ℝ)
    (hlp : (session cfg x0 y0 sigs).1.lastPos = some (lx, ly)) :
    ((session cfg x0 y0 sigs).1.direction = some Dir.x →
      (∀ e ∈ (session cfg x0 y0 sigs).2, e.1 = "movex") ∧
      (cfg.minDistanceX ≤ |lx - x0| → 0 < lx - x0 →
        (step cfg (session cfg x0 y0 sigs).1 Signal.stop).2 =
          [("slideright", JsVal.null)]) ∧
      (cfg.minDistanceX ≤ |lx - x0| → lx - x0 < 0 →
        (step cfg (session cfg x0 y0 sigs).1 Signal.stop).2 =
          [("slideleft", JsVal.null)]) ∧
      (|lx - x0| < cfg.minDistanceX →
        (step cfg (session cfg x0 y0 sigs).1 Signal.stop).2 =
          [("cancelx", JsVal.null)])) ∧
    ((session cfg x0 y0 sigs).1.direction = some Dir.y →
      (∀ e ∈ (session cfg x0 y0 sigs).2, e.1 = "movey") ∧
      (cfg.minDistanceY ≤ |ly - y0| → 0 < ly - y0 →
        (step cfg (session cfg x0 y0 sigs).1 Signal.stop).2 =
          [("slidedown", JsVal.null)]) ∧
      (cfg.minDistanceY ≤ |ly - y0| → ly - y0 < 0 →
        (step cfg (session cfg x0 y0 sigs).1 Signal.stop).2 =
          [("slideup", JsVal.null)]) ∧
      (|ly - y0| < cfg.minDistanceY →
        (step cfg (session cfg x0 y0 sigs).1 Signal.stop).2 =
          [("cancely", JsVal.null)])) ∧
    (run cfg initState (Signal.start x0 y0 :: (sigs ++ [Signal.stop]))).2 =
      (session cfg x0 y0 sigs).2 ++
        (step cfg (session cfg x0 y0 sigs).1 Signal.stop).2 := by
  have hsession : session cfg x0 y0 sigs =
      ((run cfg ⟨some (x0, y0), some (x0, y0), none⟩ sigs).1,
        [] ++ (run cfg ⟨some (x0, y0), some (x0, y0), none⟩ sigs).2) := by
    unfold session
    rw [run_cons, stepStart]
  have hspec := runMoves_spec cfg sigs hm
    ⟨some (x0, y0), some (x0, y0), none⟩ (x0, y0) rfl
  rw [hsession] at hlp ⊢
  dsimp only at hlp ⊢
  refine ⟨?_, ?_, ?_⟩
  · intro hdx
    constructor
    · intro e he
      rw [List.nil_append] at he
      rcases hspec.2.2.2 e he with ⟨h1, _, _⟩ | ⟨h1, h2, _⟩
      · exact h1
      · rw [hdx] at h2
        cases h2
    · have hS1 : (run cfg ⟨some (x0, y0), some (x0, y0), none⟩ sigs).1 =
          ⟨some (x0, y0), some (lx, ly), some Dir.x⟩ := by
        apply TState.ext
        · exact hspec.1
        · exact hlp
        · exact hdx
      rw [stepStop, hS1, touchEndHandler_lockedx]
      dsimp only
      refine ⟨?_, ?_, ?_⟩
      · intro h1 h2
        rw [if_neg (not_lt.2 h1), if_pos h2]
      · intro h1 h2
        rw [if_neg (not_lt.2 h1), if_neg (by linarith : ¬ 0 < lx - x0)]
      · intro h1
        rw [if_pos h1]
  · intro hdy
    constructor
    · intro e he
      rw [List.nil_append] at he
      rcases hspec.2.2.2 e he with ⟨h1, h2, _⟩ | ⟨h1, _, _⟩
      · rw [hdy] at h2
        cases h2
      · exact h1
    · have hS1 : (run cfg ⟨some (x0, y0), some (x0, y0), none⟩ sigs).1 =
          ⟨some (x0, y0), some (lx, ly), some Dir.y⟩ := by
        apply TState.ext
        · exact hspec.1
        · exact hlp
        · exact hdy
      rw [stepStop, hS1, touchEndHandler_lockedy]
      dsimp only
      refine ⟨?_, ?_, ?_⟩
      · intro h1 h2
        rw [if_neg (not_lt.2 h1), if_pos h2]
      · intro h1 h2
        rw [if_neg (not_lt.2 h1), if_neg (by linarith : ¬ 0 < ly - y0)]
      · intro h1
        rw [if_pos h1]
  · rw [run_cons, stepStart, run_append]
    rw [show run cfg (run cfg ⟨some (x0, y0), some (x0, y0), none⟩ sigs).1
        [Signal.stop] =
      ((step cfg (run cfg ⟨some (x0, y0), some (x0, y0), none⟩ sigs).1
          Signal.stop).1,
        (step cfg (run cfg ⟨some (x0, y0), some (x0, y0), none⟩ sigs).1
          Signal.stop).2 ++ []) from run_cons cfg _ Signal.stop []]
    simp

/-- Witness for C2: `start(0,0)`, `move(50,0)` locks `'x'` (distance 50 past
the gate 20, angle 0 outside the vertical window), and `end` with
`dx = 50 ≥ 20` fires `slideright`. -/
theorem c2_locked_axis_end_witness :
    (step cfg0 (session cfg0 0 0 [Signal.move 50 0]).1 Signal.stop).2 =
      [("slideright", JsVal.null)] := by
  have hcd : calculateDirection cfg0.minDistance cfg0.yRadian
      ((50 : ℝ) - 0) ((0 : ℝ) - 0) = some Dir.x := by
    rw [show cfg0.minDistance = (20 : ℝ) from min_self 20,
      show cfg0.yRadian = π / 2 from rfl,
      show (50 : ℝ) - 0 = 50 by norm_num, show (0 : ℝ) - 0 = 0 by norm_num]
    refine calculateDirection_east 20 (π / 2) 50 ?_ (by norm_num)
      (by linarith [Real.pi_pos])
    exact (lt_hypot_iff 20 50 0 (by norm_num)).mpr (by norm_num)
  have hs : session cfg0 0 0 [Signal.move 50 0] =
      (⟨some (0, 0), some (50, 0), some Dir.x⟩,
        [("movex", JsVal.num (50 - 0))]) := by
    unfold session
    rw [run_cons, stepStart, run_cons, stepMove_evalx cfg0 50 0 0 0 _ hcd,
      run_nil]
    simp
  have h := (c2_locked_axis_end cfg0 0 0 [Signal.move 50 0]
      (by
        intro g hg
        rw [List.mem_singleton] at hg
        subst hg
        exact ⟨50, 0, rfl⟩) 50 0 (by rw [hs])).1 (by rw [hs])
  refine h.2.1 ?_ (by norm_num)
  rw [show cfg0.minDistanceX = (20 : ℝ) from rfl,
    abs_of_nonneg (by norm_num : (0 : ℝ) ≤ 50 - 0)]
  norm_num

/-- C4: at the moment of the axis-locking decision (displacement past the
gate) with `dy ≠ 0`, the classification is `'y'` exactly when the angle
`atan2(dy, dx)` lies strictly within `yRadian / 2` of the vertical ray
(`+π/2` for `dy > 0`, `-π/2` for `dy < 0`), and `'x'` otherwise — so at the
exact boundary the horizontal classification wins. -/
theorem c4_angular_classification (minD yR dx dy : ℝ)
    (hd : minD < hypot dx dy) (hy : dy ≠ 0) :
    (calculateDirection minD yR dx dy = some Dir.y ↔
      |atan2 dy dx - (if 0 < dy then (1 : ℝ) else -1) * π / 2| < yR / 2) ∧
    (calculateDirection minD yR dx dy = some Dir.x ↔
      ¬ |atan2 dy dx - (if 0 < dy then (1 : ℝ) else -1) * π / 2| < yR / 2) := by
  have hsign : (if 0 < atan2 dy dx then (1 : ℝ) else -1) =
      (if 0 < dy then (1 : ℝ) else -1) := by
    by_cases h : 0 < dy
    · rw [if_pos h, if_pos ((atan2_pos_iff dy dx hy).mpr h)]
    · rw [if_neg h, if_neg (fun hc => h ((atan2_pos_iff dy dx hy).mp hc))]
  unfold calculateDirection
  rw [if_pos hd]
  dsimp only
  rw [hsign]
  by_cases hwin :
      |atan2 dy dx - (if 0 < dy then (1 : ℝ) else -1) * π / 2| < yR / 2
  · rw [if_pos hwin]
    refine ⟨⟨fun _ => hwin, fun _ => rfl⟩, ?_, ?_⟩
    · intro h
      exact absurd h (by decide)
    · intro h
      exact absurd hwin h
  · rw [if_neg hwin]
    refine ⟨⟨?_, fun h => absurd h hwin⟩, fun _ => hwin, fun _ => rfl⟩
    intro h
    exact absurd h (by decide)

/-- Witness for C4 at `(dx, dy) = (0, 1)` with gate `1/2` and the default
window `π / 2`: the move is classified vertical.  The hypotheses are
discharged concretely. -/
theorem c4_angular_classification_witness :
    ((1 : ℝ) / 2 < hypot 0 1) ∧
    (calculateDirection (1 / 2) (π / 2) 0 1 = some Dir.y ↔
      |atan2 1 0 - (if (0 : ℝ) < 1 then (1 : ℝ) else -1) * π / 2| < π / 2 / 2) := by
  have hd : (1 : ℝ) / 2 < hypot 0 1 :=
    (lt_hypot_iff (1 / 2) 0 1 (by norm_num)).mpr (by norm_num)
  exact ⟨hd, (c4_angular_classification (1 / 2) (π / 2) 0 1 hd
    (by norm_num)).1⟩

theorem jsIndex_mem (l : List String) (i : ℤ) (a : String)
    (h : jsIndex l i = some a) : a ∈ l := by
  unfold jsIndex at h
  by_cases hi : 0 ≤ i
  · rw [if_pos hi] at h
    exact List.getElem?_mem h
  · rw [if_neg hi] at h
    cases h

/-- Every action a handler can trigger carries a name from the twelve
code action names. -/
theorem step_actions_sound (cfg : TConfig) (s : TState) (g : Signal) :
    ∀ e ∈ (step cfg s g).2, e.1 ∈ codeActionNames := by
  intro e he
  cases g with
  | start x y =>
    rw [stepStart] at he
    simp at he
  | move x y =>
    rw [stepMove] at he
    obtain ⟨sp, lp, d0⟩ := s
    cases sp with
    | none =>
      rw [touchMoveHandler_noStart _ _ _ _ _ rfl] at he
      simp at he
    | some p =>
      cases d0 with
      | none =>
        rw [touchMoveHandler_unlocked] at he
        dsimp only at he
        rcases hcd : calculateDirection cfg.minDistance cfg.yRadian
            (x - p.1) (y - p.2) with _ | d
        · rw [hcd] at he
          simp at he
        · rw [hcd] at he
          cases d with
          | x =>
            rw [List.mem_singleton] at he
            subst he
            show "movex" ∈ codeActionNames
            decide
          | y =>
            rw [List.mem_singleton] at he
            subst he
            show "movey" ∈ codeActionNames
            decide
      | some d =>
        cases d with
        | x =>
          rw [touchMoveHandler_lockedx] at he
          rw [List.mem_singleton] at he
          subst he
          show "movex" ∈ codeActionNames
          decide
        | y =>
          rw [touchMoveHandler_lockedy] at he
          rw [List.mem_singleton] at he
          subst he
          show "movey" ∈ codeActionNames
          decide
  | stop =>
    rw [stepStop] at he
    obtain ⟨sp, lp, d0⟩ := s
    cases sp with
    | none =>
      rw [touchEndHandler_missing cfg _ (Or.inl rfl)] at he
      unfold touchCancelHandler at he
      rcases d0 with _ | d
      · simp at he
      · cases d <;> (rw [List.mem_singleton] at he; subst he; decide)
    | some p =>
      cases lp with
      | none =>
        rw [touchEndHandler_missing cfg _ (Or.inr rfl)] at he
        unfold touchCancelHandler at he
        rcases d0 with _ | d
        · simp at he
        · cases d <;> (rw [List.mem_singleton] at he; subst he; decide)
      | some q =>
        cases d0 with
        | none =>
          rw [touchEndHandler_tap] at he
          dsimp only at he
          by_cases h2 : cfg.clickParts = 2
          · rw [if_pos h2] at he
            rcases hidx : jsIndex ["touchleft", "touchright"]
                ⌊p.1 * 2 / cfg.innerWidth⌋ with _ | a
            · rw [hidx] at he
              simp [jsTrigger] at he
            · rw [hidx] at he
              unfold jsTrigger at he
              rw [List.mem_singleton] at he
              subst he
              have ha := jsIndex_mem _ _ _ hidx
              show a ∈ codeActionNames
              simp only [List.mem_cons, List.not_mem_nil, or_false] at ha
              rcases ha with rfl | rfl <;> decide
          · rw [if_neg h2] at he
            by_cases h3 : cfg.clickParts = 3
            · rw [if_pos h3] at he
              rcases hidx : jsIndex ["touchleft", "touchmiddle", "touchright"]
                  ⌊p.1 * 3 / cfg.innerWidth⌋ with _ | a
              · rw [hidx] at he
                simp [jsTrigger] at he
              · rw [hidx] at he
                unfold jsTrigger at he
                rw [List.mem_singleton] at he
                subst he
                have ha := jsIndex_mem _ _ _ hidx
                show a ∈ codeActionNames
                simp only [List.mem_cons, List.not_mem_nil, or_false] at ha
                rcases ha with rfl | rfl | rfl <;> decide
            · rw [if_neg h3] at he
              rw [List.mem_singleton] at he
              subst he
              decide
        | some d =>
          cases d with
          | x =>
            rw [touchEndHandler_lockedx] at he
            dsimp only at he
            by_cases hlt : |q.1 - p.1| < cfg.minDistanceX
            · rw [if_pos hlt] at he
              rw [List.mem_singleton] at he
              subst he
              decide
            · rw [if_neg hlt] at he
              rw [List.mem_singleton] at he
              subst he
              show (if 0 < q.1 - p.1 then "slideright" else "slideleft") ∈
                codeActionNames
              by_cases hpos : 0 < q.1 - p.1
              · rw [if_pos hpos]
                decide
              · rw [if_neg hpos]
                decide
          | y =>
            rw [touchEndHandler_lockedy] at he
            dsimp only at he
            by_cases hlt : |q.2 - p.2| < cfg.minDistanceY
            · rw [if_pos hlt] at he
              rw [List.mem_singleton] at he
              subst he
              decide
            · rw [if_neg hlt] at he
              rw [List.mem_singleton] at he
              subst he
              show (if 0 < q.2 - p.2 then "slidedown" else "slideup") ∈
                codeActionNames
              by_cases hpos : 0 < q.2 - p.2
              · rw [if_pos hpos]
                decide
              · rw [if_neg hpos]
                decide
  | cancel =>
    rw [stepCancel] at he
    unfold touchCancelHandler at he
    rcases hd : s.direction with _ | d
    · rw [hd] at he
      simp at he
    · rw [hd] at he
      cases d <;> (rw [List.mem_singleton] at he; subst he; decide)

/-- A configuration whose `clickParts` is neither 2 nor 3 and whose
thresholds are zero, for exercising individual actions. -/
def cfgP : TConfig := ⟨0, 0, 0, 0, 1⟩

/-- A two-zone configuration on a width-1 surface. -/
def cfg2 : TConfig := ⟨0, 0, 2, 0, 1⟩

/-- A three-zone configuration on a width-1 surface. -/
def cfg3 : TConfig := ⟨0, 0, 3, 0, 1⟩

/-- C7 (amended): every action the classifier fires is one of the twelve
code action names, each of the twelve can fire, and the registration
wrappers subscribe exactly those twelve names. -/
theorem c7_action_vocabulary :
    (∀ (cfg : TConfig) (s : TState) (g : Signal),
      ∀ e ∈ (step cfg s g).2, e.1 ∈ codeActionNames) ∧
    (∀ a ∈ codeActionNames, ∃ (cfg : TConfig) (s : TState) (g : Signal)
      (v : JsVal), (a, v) ∈ (step cfg s g).2) ∧
    (∀ (reg : Registry) (cb : ℕ),
      [onTouch reg cb, onTouchLeft reg cb, onTouchRight reg cb,
       onTouchMiddle reg cb, onMoveX reg cb, onMoveY reg cb,
       onCancelX reg cb, onCancelY reg cb, onSlideUp reg cb,
       onSlideDown reg cb, onSlideLeft reg cb, onSlideRight reg cb] =
        codeActionNames.map (fun a => addListener reg a cb)) := by
  refine ⟨step_actions_sound, ?_, fun reg cb => rfl⟩
  intro a ha
  fin_cases ha
  · -- touch
    refine ⟨cfgP, ⟨some (0, 0), some (0, 0), none⟩, Signal.stop, JsVal.null, ?_⟩
    rw [stepStop, touchEndHandler_tap]
    dsimp only
    rw [if_neg (by decide : ¬ cfgP.clickParts = 2),
      if_neg (by decide : ¬ cfgP.clickParts = 3)]
    simp
  · -- touchleft
    refine ⟨cfg2, ⟨some (0, 0), some (0, 0), none⟩, Signal.stop, JsVal.null, ?_⟩
    rw [stepStop, touchEndHandler_tap]
    dsimp only
    rw [if_pos (by decide : cfg2.clickParts = 2)]
    have hfl : ⌊(0 : ℝ) * 2 / cfg2.innerWidth⌋ = 0 := by
      rw [show cfg2.innerWidth = (1 : ℝ) from rfl]
      norm_num
    rw [hfl]
    simp [jsIndex, jsTrigger]
  · -- touchright
    refine ⟨cfg2, ⟨some (1 / 2, 0), some (0, 0), none⟩, Signal.stop,
      JsVal.null, ?_⟩
    rw [stepStop, touchEndHandler_tap]
    dsimp only
    rw [if_pos (by decide : cfg2.clickParts = 2)]
    have hfl : ⌊(1 / 2 : ℝ) * 2 / cfg2.innerWidth⌋ = 1 := by
      rw [show cfg2.innerWidth = (1 : ℝ) from rfl]
      norm_num
    rw [hfl]
    simp [jsIndex, jsTrigger]
  · -- touchmiddle
    refine ⟨cfg3, ⟨some (1 / 2, 0), some (0, 0), none⟩, Signal.stop,
      JsVal.null, ?_⟩
    rw [stepStop, touchEndHandler_tap]
    dsimp only
    rw [if_neg (by decide : ¬ cfg3.clickParts = 2),
      if_pos (by decide : cfg3.clickParts = 3)]
    have hfl : ⌊(1 / 2 : ℝ) * 3 / cfg3.innerWidth⌋ = 1 := by
      rw [show cfg3.innerWidth = (1 : ℝ) from rfl]
      rw [show (1 / 2 : ℝ) * 3 / 1 = 3 / 2 by norm_num]
      exact Int.floor_eq_iff.mpr (by norm_num)
    rw [hfl]
    simp [jsIndex, jsTrigger]
  · -- movex
    refine ⟨cfgP, ⟨some (0, 0), some (0, 0), some Dir.x⟩, Signal.move 5 0,
      JsVal.num (5 - 0), ?_⟩
    rw [stepMove, touchMoveHandler_lockedx]
    simp
  · -- movey
    refine ⟨cfgP, ⟨some (0, 0), some (0, 0), some Dir.y⟩, Signal.move 0 5,
      JsVal.num (5 - 0), ?_⟩
    rw [stepMove, touchMoveHandler_lockedy]
    simp
  · -- cancelx
    refine ⟨cfgP, ⟨some (0, 0), some (0, 0), some Dir.x⟩, Signal.cancel,
      JsVal.null, ?_⟩
    rw [stepCancel]
    simp [touchCancelHandler]
  · -- cancely
    refine ⟨cfgP, ⟨some (0, 0), some (0, 0), some Dir.y⟩, Signal.cancel,
      JsVal.null, ?_⟩
    rw [stepCancel]
    simp [touchCancelHandler]
  · -- slideup
    refine ⟨cfgP, ⟨some (0, 0), some (0, -5), some Dir.y⟩, Signal.stop,
      JsVal.null, ?_⟩
    rw [stepStop, touchEndHandler_lockedy]
    dsimp only
    rw [if_neg (by
      rw [show cfgP.minDistanceY = (0 : ℝ) from rfl]
      exact not_lt.2 (abs_nonneg _))]
    rw [if_neg (by norm_num : ¬ (0 : ℝ) < -5 - 0)]
    simp
  · -- slidedown
    refine ⟨cfgP, ⟨some (0, 0), some (0, 5), some Dir.y⟩, Signal.stop,
      JsVal.null, ?_⟩
    rw [stepStop, touchEndHandler_lockedy]
    dsimp only
    rw [if_neg (by
      rw [show cfgP.minDistanceY = (0 : ℝ) from rfl]
      exact not_lt.2 (abs_nonneg _))]
    rw [if_pos (by norm_num : (0 : ℝ) < 5 - 0)]
    simp
  · -- slideleft
    refine ⟨cfgP, ⟨some (0, 0), some (-5, 0), some Dir.x⟩, Signal.stop,
      JsVal.null, ?_⟩
    rw [stepStop, touchEndHandler_lockedx]
    dsimp only
    rw [if_neg (by
      rw [show cfgP.minDistanceX = (0 : ℝ) from rfl]
      exact not_lt.2 (abs_nonneg _))]
    rw [if_neg (by norm_num : ¬ (0 : ℝ) < -5 - 0)]
    simp
  · -- slideright
    refine ⟨cfgP, ⟨some (0, 0), some (5, 0), some Dir.x⟩, Signal.stop,
      JsVal.null, ?_⟩
    rw [stepStop, touchEndHandler_lockedx]
    dsimp only
    rw [if_neg (by
      rw [show cfgP.minDistanceX = (0 : ℝ) from rfl]
      exact not_lt.2 (abs_nonneg _))]
    rw [if_pos (by norm_num : (0 : ℝ) < 5 - 0)]
    simp

/-- Direct evaluation of the tap session `start(250, 50); end` under the
default three-zone configuration: the classifier triggers `touchright`. -/
theorem run_tap250_eval :
    (run cfg0 initState [Signal.start 250 50, Signal.stop]).2 =
      [("touchright", JsVal.null)] := by
  rw [run_cons, stepStart, run_cons, run_nil, stepStop, touchEndHandler_tap]
  dsimp only
  rw [if_neg (by decide : ¬ cfg0.clickParts = 2),
    if_pos (by decide : cfg0.clickParts = 3)]
  have hfl : ⌊(250 : ℝ) * 3 / cfg0.innerWidth⌋ = 2 := by
    rw [show cfg0.innerWidth = (300 : ℝ) from rfl,
      show (250 : ℝ) * 3 / 300 = 5 / 2 by norm_num]
    exact Int.floor_eq_iff.mpr (by norm_num)
  rw [hfl]
  simp [jsIndex, jsTrigger]

/-- The action names exactly as the specification spells them, with
hyphens. -/
def specActionNames : List String :=
  ["touch", "touch-left", "touch-right", "touch-middle", "move-x", "move-y",
   "cancel-x", "cancel-y", "slide-up", "slide-down", "slide-left",
   "slide-right"]

/-- Counterexample to C7 as stated: the classifier fires the name
`touchright`, which is not among the hyphenated names the claim lists as the
exact contract. -/
theorem c7_action_vocabulary_counterexample :
    (run cfg0 initState [Signal.start 250 50, Signal.stop]).2 =
      [("touchright", JsVal.null)] ∧
    "touchright" ∉ specActionNames ∧ "touchright" ∈ codeActionNames :=
  ⟨run_tap250_eval, by decide, by decide⟩

/-- Witness for C7: the soundness half applied to a concretely fired
`cancelx` event, and the completeness half applied to `"slideright"`. -/
theorem c7_action_vocabulary_witness :
    (("cancelx", JsVal.null).1 ∈ codeActionNames) ∧
    (∃ (cfg : TConfig) (s : TState) (g : Signal) (v : JsVal),
      ("slideright", v) ∈ (step cfg s g).2) :=
  ⟨c7_action_vocabulary.1 cfgP ⟨some (0, 0), some (0, 0), some Dir.x⟩
      Signal.cancel ("cancelx", JsVal.null)
      (by rw [stepCancel]; simp [touchCancelHandler]),
    c7_action_vocabulary.2.1 "slideright" (by decide)⟩

theorem lookupListeners_addListener_same (reg : Registry) (a : String) (cb : ℕ) :
    lookupListeners (addListener reg a cb) a =
      some ((lookupListeners reg a).getD [] ++ [cb]) := by
  induction reg with
  | nil => simp [addListener, lookupListeners]
  | cons hd tl ih =>
    obtain ⟨b, cbs⟩ := hd
    by_cases hb : b = a
    · subst hb
      simp [addListener, lookupListeners]
    · simp [addListener, lookupListeners, hb, ih]

/-- C8 (amended): every fired `movex`/`movey` event carries a numeric offset
and every other fired event carries the offset `null`; `trigger` passes each
registered callback exactly one argument, the offset; and registering a
callback appends it, so it is invoked after all previously registered
callbacks of the same action. -/
theorem c8_callback_arguments :
    (∀ (cfg : TConfig) (s : TState) (g : Signal), ∀ e ∈ (step cfg s g).2,
      ((e.1 = "movex" ∨ e.1 = "movey") → ∃ r, e.2 = JsVal.num r) ∧
      (e.1 ≠ "movex" → e.1 ≠ "movey" → e.2 = JsVal.null)) ∧
    (∀ (reg : Registry) (a : String) (v : JsVal),
      ∀ c ∈ trigger reg a v, c.2 = [v]) ∧
    (∀ (reg : Registry) (a : String) (cb : ℕ) (v : JsVal),
      trigger (addListener reg a cb) a v = trigger reg a v ++ [(cb, [v])]) := by
  refine ⟨?_, ?_, ?_⟩
  · intro cfg s g e he
    cases g with
    | start x y =>
      rw [stepStart] at he
      simp at he
    | move x y =>
      rw [stepMove] at he
      obtain ⟨sp, lp, d0⟩ := s
      cases sp with
      | none =>
        rw [touchMoveHandler_noStart _ _ _ _ _ rfl] at he
        simp at he
      | some p =>
        cases d0 with
        | none =>
          rw [touchMoveHandler_unlocked] at he
          dsimp only at he
          rcases hcd : calculateDirection cfg.minDistance cfg.yRadian
              (x - p.1) (y - p.2) with _ | d
          · rw [hcd] at he
            simp at he
          · rw [hcd] at he
            cases d with
            | x =>
              rw [List.mem_singleton] at he
              subst he
              exact ⟨fun _ => ⟨x - p.1, rfl⟩, fun h _ => absurd rfl h⟩
            | y =>
              rw [List.mem_singleton] at he
              subst he
              exact ⟨fun _ => ⟨y - p.2, rfl⟩, fun _ h => absurd rfl h⟩
        | some d =>
          cases d with
          | x =>
            rw [touchMoveHandler_lockedx, List.mem_singleton] at he
            subst he
            exact ⟨fun _ => ⟨x - p.1, rfl⟩, fun h _ => absurd rfl h⟩
          | y =>
            rw [touchMoveHandler_lockedy, List.mem_singleton] at he
            subst he
            exact ⟨fun _ => ⟨y - p.2, rfl⟩, fun _ h => absurd rfl h⟩
    | stop =>
      rw [stepStop] at he
      obtain ⟨sp, lp, d0⟩ := s
      cases sp with
      | none =>
        rw [touchEndHandler_missing cfg _ (Or.inl rfl)] at he
        unfold touchCancelHandler at he
        rcases d0 with _ | d
        · simp at he
        · cases d <;>
            (rw [List.mem_singleton] at he
             subst he
             exact ⟨fun h => absurd h (by decide), fun _ _ => rfl⟩)
      | some p =>
        cases lp with
        | none =>
          rw [touchEndHandler_missing cfg _ (Or.inr rfl)] at he
          unfold touchCancelHandler at he
          rcases d0 with _ | d
          · simp at he
          · cases d <;>
              (rw [List.mem_singleton] at he
               subst he
               exact ⟨fun h => absurd h (by decide), fun _ _ => rfl⟩)
        | some q =>
          cases d0 with
          | none =>
            rw [touchEndHandler_tap] at he
            dsimp only at he
            by_cases h2 : cfg.clickParts = 2
            · rw [if_pos h2] at he
              rcases hidx : jsIndex ["touchleft", "touchright"]
                  ⌊p.1 * 2 / cfg.innerWidth⌋ with _ | a
              · rw [hidx] at he
                simp [jsTrigger] at he
              · rw [hidx] at he
                unfold jsTrigger at he
                rw [List.mem_singleton] at he
                subst he
                have ha := jsIndex_mem _ _ _ hidx
                simp only [List.mem_cons, List.not_mem_nil, or_false] at ha
                rcases ha with rfl | rfl <;>
                  exact ⟨fun h => absurd h (by decide), fun _ _ => rfl⟩
            · rw [if_neg h2] at he
              by_cases h3 : cfg.clickParts = 3
              · rw [if_pos h3] at he
                rcases hidx : jsIndex ["touchleft", "touchmiddle",
                    "touchright"] ⌊p.1 * 3 / cfg.innerWidth⌋ with _ | a
                · rw [hidx] at he
                  simp [jsTrigger] at he
                · rw [hidx] at he
                  unfold jsTrigger at he
                  rw [List.mem_singleton] at he
                  subst he
                  have ha := jsIndex_mem _ _ _ hidx
                  simp only [List.mem_cons, List.not_mem_nil, or_false] at ha
                  rcases ha with rfl | rfl | rfl <;>
                    exact ⟨fun h => absurd h (by decide), fun _ _ => rfl⟩
              · rw [if_neg h3] at he
                rw [List.mem_singleton] at he
                subst he
                exact ⟨fun h => absurd h (by decide), fun _ _ => rfl⟩
          | some d =>
            cases d with
            | x =>
              rw [touchEndHandler_lockedx] at he
              dsimp only at he
              by_cases hlt : |q.1 - p.1| < cfg.minDistanceX
              · rw [if_pos hlt, List.mem_singleton] at he
                subst he
                exact ⟨fun h => absurd h (by decide), fun _ _ => rfl⟩
              · rw [if_neg hlt, List.mem_singleton] at he
                subst he
                by_cases hpos : 0 < q.1 - p.1
                · rw [if_pos hpos]
                  exact ⟨fun h => absurd h (by decide), fun _ _ => rfl⟩
                · rw [if_neg hpos]
                  exact ⟨fun h => absurd h (by decide), fun _ _ => rfl⟩
            | y =>
              rw [touchEndHandler_lockedy] at he
              dsimp only at he
              by_cases hlt : |q.2 - p.2| < cfg.minDistanceY
              · rw [if_pos hlt, List.mem_singleton] at he
                subst he
                exact ⟨fun h => absurd h (by decide), fun _ _ => rfl⟩
              · rw [if_neg hlt, List.mem_singleton] at he
                subst he
                by_cases hpos : 0 < q.2 - p.2
                · rw [if_pos hpos]
                  exact ⟨fun h => absurd h (by decide), fun _ _ => rfl⟩
                · rw [if_neg hpos]
                  exact ⟨fun h => absurd h (by decide), fun _ _ => rfl⟩
    | cancel =>
      rw [stepCancel] at he
      unfold touchCancelHandler at he
      rcases hd : s.direction with _ | d
      · rw [hd] at he
        simp at he
      · rw [hd] at he
        cases d <;>
          (rw [List.mem_singleton] at he
           subst he
           exact ⟨fun h => absurd h (by decide), fun _ _ => rfl⟩)
  · intro reg a v c hc
    unfold trigger at hc
    rcases h : lookupListeners reg a with _ | cbs
    · rw [h] at hc
      simp at hc
    · rw [h] at hc
      dsimp only at hc
      obtain ⟨cb, _, rfl⟩ := List.mem_map.mp hc
      rfl
  · intro reg a cb v
    unfold trigger
    rw [lookupListeners_addListener_same]
    rcases h : lookupListeners reg a with _ | cbs
    · simp
    · simp

/-- Counterexample to C8 as stated: a callback registered for the
non-move action `touchright` receives the single argument `null` when the
tap session fires — one argument, not "no argument at all". -/
theorem c8_callback_arguments_counterexample :
    dispatchAll (addListener [] "touchright" 0)
      ((run cfg0 initState [Signal.start 250 50, Signal.stop]).2) =
      [(0, [JsVal.null])] ∧
    [JsVal.null] ≠ ([] : List JsVal) := by
  constructor
  · rw [run_tap250_eval]
    rfl
  · exact List.cons_ne_nil _ _

/-- Witness for C8: the offset classification applied to a concretely fired
`movex` event, a concrete `trigger` call, and a concrete registration-order
equation. -/
theorem c8_callback_arguments_witness :
    ((("movex", JsVal.num (5 - 0)).1 = "movex" ∨
        ("movex", JsVal.num (5 - 0)).1 = "movey") →
      ∃ r, ("movex", JsVal.num (5 - 0)).2 = JsVal.num r) ∧
    (∀ c ∈ trigger [("touch", [4])] "touch" JsVal.null, c.2 = [JsVal.null]) ∧
    trigger (addListener [("touch", [4])] "touch" 7) "touch" JsVal.null =
      trigger [("touch", [4])] "touch" JsVal.null ++ [(7, [JsVal.null])] :=
  ⟨(c8_callback_arguments.1 cfgP ⟨some (0, 0), some (0, 0), some Dir.x⟩
      (Signal.move 5 0) ("movex", JsVal.num (5 - 0))
      (by rw [stepMove, touchMoveHandler_lockedx]; simp)).1,
    c8_callback_arguments.2.1 [("touch", [4])] "touch" JsVal.null,
    c8_callback_arguments.2.2 [("touch", [4])] "touch" 7 JsVal.null⟩

/-- C9: while the `touchStart` flag is set, the next `mousedown` is consumed
by the one-shot suppression — it emits no `start` signal, does not set
`mouseDown`, and only clears the flag — and the `mousedown` after that
behaves normally, emitting `start` and opening a mouse session.  A
`touchstart` always sets the flag. -/
theorem c9_mouse_suppression (s : NState) (x y : ℝ)
    (hts : s.touchStart = true) :
    nstep s (DomEv.mousedown x y) = ({ s with touchStart := false }, []) ∧
    (∀ x2 y2 : ℝ, nstep { s with touchStart := false }
        (DomEv.mousedown x2 y2) =
      ({ s with touchStart := false, mouseDown := true, globalMouse := true },
        [Signal.start x2 y2])) ∧
    (∀ x2 y2 : ℝ, (nstep s (DomEv.touchstart x2 y2)).1.touchStart = true) := by
  refine ⟨?_, ?_, ?_⟩
  · simp [nstep, hts]
  · intro x2 y2
    simp [nstep]
  · intro x2 y2
    rfl

/-- Witness for C9 at a concrete flag state: the suppressed `mousedown`
followed by a normally handled one. -/
theorem c9_mouse_suppression_witness :
    nstep ⟨false, true, false, true⟩ (DomEv.mousedown 1 2) =
      (⟨false, false, false, true⟩, []) ∧
    nstep ⟨false, false, false, true⟩ (DomEv.mousedown 3 4) =
      (⟨true, false, true, true⟩, [Signal.start 3 4]) := by
  have h := c9_mouse_suppression ⟨false, true, false, true⟩ 1 2 rfl
  exact ⟨h.1, h.2.1 3 4⟩

/-- C10 (amended): in `setRatio` the dangling `else` binds to the
`ratio === 0` test, so a ratio of exactly 0 is special-cased — `pos =
config.min` is retained, which coincides with the value of the general
clamped formula — while a ratio of exactly 1 falls through to the
clamped-computation branch: the `pos = config.max` assignment is immediately
overwritten by the general formula, which can yield a value below
`config.max`. -/
theorem c10_setRatio_behaviour (c : RangeConfig) (hc : c.min ≤ c.max) :
    setRatio c 0 = some c.min ∧
    clampedPos c 0 = c.min ∧
    (∀ r : ℚ, r ≠ 0 → setRatio c r = some (clampedPos c r)) := by
  refine ⟨?_, ?_, ?_⟩
  · simp [setRatio]
  · unfold clampedPos
    rw [show (c.max - c.min) * 0 / c.step = 0 by ring, round_zero]
    push_cast
    rw [zero_mul, zero_add, max_self, min_eq_right hc]
  · intro r hr
    simp [setRatio, hr]

/-- Counterexample to C10 as stated: with `min = 0`, `max = 10`, `step = 3`,
a ratio of exactly 1 is not kept at `config.max` — the overwrite by the
clamped formula yields 9, not 10. -/
theorem c10_setRatio_counterexample :
    setRatio ⟨0, 10, 3⟩ 1 = some 9 ∧
    (⟨0, 10, 3⟩ : RangeConfig).max = 10 ∧ (9 : ℚ) ≠ 10 := by
  refine ⟨?_, rfl, by norm_num⟩
  show (if (1 : ℚ) = 0 then some (⟨0, 10, 3⟩ : RangeConfig).min
    else some (clampedPos ⟨0, 10, 3⟩ 1)) = some 9
  rw [if_neg (by norm_num : ¬ (1 : ℚ) = 0)]
  unfold clampedPos
  dsimp only
  rw [show ((10 : ℚ) - 0) * 1 / 3 = 10 / 3 by norm_num]
  rw [show round ((10 : ℚ) / 3) = 3 by rw [round_eq]; norm_num]
  rw [show ((3 : ℤ) : ℚ) * 3 + 0 = 9 by norm_num]
  rw [max_eq_right (by norm_num : (0 : ℚ) ≤ 9),
    min_eq_right (by norm_num : (9 : ℚ) ≤ 10)]

/-- Witness for C10: the amended behaviour at the configuration
`{min := 0, max := 1, step := 1}` — ratio 0 yields `min` and ratio 1 is
computed by the clamped formula. -/
theorem c10_setRatio_behaviour_witness :
    setRatio ⟨0, 1, 1⟩ 0 = some (0 : ℚ) ∧
    setRatio ⟨0, 1, 1⟩ 1 = some (clampedPos ⟨0, 1, 1⟩ 1) := by
  have h := c10_setRatio_behaviour ⟨0, 1, 1⟩ (by norm_num)
  exact ⟨h.1, h.2.2 1 (by norm_num)⟩
